import Mathlib

/-!
# Verification of the AILinux mesh coordination core

Shallow embedding of the mesh hub (`app/mcp/mesh_hub.py`), the mesh node
gossip handler (`app/mcp/mesh_node.py`), the federation vault
(`app/services/federation_vault.py`, `app/mcp/federation_tools.py`) and the
signed-envelope verification (`app/services/server_federation.py`),
together with theorems settling the frozen claims about provider
selection, pending-call resolution, token verification and registration,
replay-window checks, tool-index updates, heartbeat handling, routing
errors, gossip merging, and request counting.

Python dictionaries are modelled as association lists keyed by strings:
`lookupA` is `dict.get`, `setA` is `dict.__setitem__` (insert or replace),
`eraseA` is `dict.pop`.  Cryptographic hashes (`hashlib.sha256`,
`hmac.new(...).hexdigest()`) are modelled as explicit function parameters
of the definitions that use them, and wall-clock readings
(`datetime.now()`, `time.time()`) as explicit arguments.
-/

namespace Mesh

/-- `dict.get k` on an association list. -/
def lookupA {V : Type} : List (String × V) → String → Option V
  | [], _ => none
  | e :: es, k => if e.1 == k then some e.2 else lookupA es k

/-- `dict[k] = v`: replace the binding for `k` in place, or append a new
one at the end (Python dicts keep insertion order). -/
def setA {V : Type} : List (String × V) → String → V → List (String × V)
  | [], k, v => [(k, v)]
  | e :: es, k, v => if e.1 == k then (k, v) :: es else e :: setA es k v

/-- `dict.pop(k, None)`: remove the binding for `k` (if any). -/
def eraseA {V : Type} (l : List (String × V)) (k : String) :
    List (String × V) :=
  l.filter (fun e => !(e.1 == k))

/-- Update the value bound to `k` in place, when present. -/
def updateA {V : Type} : List (String × V) → String → (V → V) →
    List (String × V)
  | [], _, _ => []
  | e :: es, k, f =>
    (if e.1 == k then (e.1, f e.2) else e) :: updateA es k f

/-! ## Hub data model (`mesh_hub.py`) -/

/-- `MeshNode` from `mesh_hub.py` (the fields the hub logic reads).
`wsClosed` models `websocket.closed`; `last_ping` is the timestamp of the
last received ping, in seconds. -/
structure MeshNodeR where
  wsClosed : Bool
  tools : List String
  request_count : Nat
  last_ping : Nat
deriving Repr, DecidableEq

/-- `PendingRequest` from `mesh_hub.py` (the fields the claims read).
The one-shot `asyncio.Future` is modelled by the resolution paths of
`route_finish` / `handle_response` below. -/
structure PendingR where
  source_node : String
  target_node : String
deriving Repr, DecidableEq

/-- The mutable state of `MeshHub`: `nodes` (session_id → node),
`tool_providers` (tool name → session_ids, in registration order),
`pending_requests` (request id → pending entry) and the request counter. -/
structure HubState where
  nodes : List (String × MeshNodeR)
  tool_providers : List (String × List String)
  pending_requests : List (String × PendingR)
  request_counter : Nat
  total_tool_calls : Nat
deriving Repr, DecidableEq

/-- `self.tool_providers.get(tool_name, [])` (a `defaultdict(list)`). -/
def providersOf (s : HubState) (tool : String) : List String :=
  (lookupA s.tool_providers tool).getD []

/-- `self.nodes.get(session_id)`. -/
def nodeOf (s : HubState) (sid : String) : Option MeshNodeR :=
  lookupA s.nodes sid

/-- `p in self.nodes and not self.nodes[p].websocket.closed`: the filter
used by `find_tool_provider`. -/
def isConnected (s : HubState) (sid : String) : Bool :=
  match nodeOf s sid with
  | some n => !n.wsClosed
  | none => false

/-- `self.nodes[p].request_count` (0 when the node is absent; the callers
below only apply it to session ids present in `nodes`). -/
def requestCountOf (s : HubState) (sid : String) : Nat :=
  match nodeOf s sid with
  | some n => n.request_count
  | none => 0

/-- Minimum of a list of `Nat`s: `min(...)` over a nonempty generator. -/
def natMin? : List Nat → Option Nat
  | [] => none
  | x :: xs =>
    match natMin? xs with
    | none => some x
    | some m => some (Nat.min x m)

/-- `MeshHub.find_tool_provider`: filter the providers of `tool_name` to
connected nodes, then return the first one whose `request_count` equals
the minimum over the connected providers; `None` when no provider is
connected. -/
def find_tool_provider (s : HubState) (tool_name : String) : Option String :=
  let connected := (providersOf s tool_name).filter (isConnected s)
  match natMin? (connected.map (requestCountOf s)) with
  | none => none
  | some m => connected.find? (fun p => requestCountOf s p == m)

/-! ## Tool-call routing (`MeshHub.route_tool_call`, `MeshHub.handle_response`) -/

/-- A JSON-RPC response body, as consumed by `handle_response`:
`result` or a truthy `error` (whose `message` field becomes the
exception text). -/
inductive RespBody where
  | result (value : String)
  | error (message : String)
deriving Repr, DecidableEq

/-- What the environment does to one routed call after the request has
been sent: a response arrives before the deadline, or the deadline
elapses first. -/
inductive CallEnv where
  | responded (body : RespBody)
  | timedOut
deriving Repr, DecidableEq

/-- Terminal outcome of `route_tool_call` (its returned dict). -/
inductive RouteResult where
  | noProvider (tool_name : String)
  | sendFailed (provider : String)
  | timeout
  | ok (value : String)
  | errorResult (message : String)
deriving Repr, DecidableEq

/-- What `handle_response` did: resolved the pending entry, or logged a
warning and dropped the spurious response (no exception raised). -/
inductive RespAction where
  | resolvedOk
  | resolvedError
  | droppedLogged
deriving Repr, DecidableEq

/-- `MeshHub.handle_response`: pop the pending entry for `request_id`;
when absent, log a warning and return (the response is dropped); when
present, resolve its future with the result or the error. -/
def handle_response (s : HubState) (request_id : String) (body : RespBody) :
    HubState × RespAction :=
  match lookupA s.pending_requests request_id with
  | none => (s, .droppedLogged)
  | some _ =>
    let s' := { s with pending_requests := eraseA s.pending_requests request_id }
    match body with
    | .error _ => (s', .resolvedError)
    | .result _ => (s', .resolvedOk)

/-- The provider-selection prefix of `MeshHub.route_tool_call`: when
`target_session` is truthy (present and nonempty — Python tests
`if target_session:`), the target is used iff it is a key of `nodes`
(its transport state is not consulted); a falsy target falls through to
`find_tool_provider` like no target at all. -/
def routeProvider (s : HubState) (tool_name : String)
    (target_session : Option String) : Option String :=
  match target_session with
  | some t =>
    if t ≠ "" then (if (nodeOf s t).isSome then some t else none)
    else find_tool_provider s tool_name
  | none => find_tool_provider s tool_name

/-- The state-mutating prefix of `route_tool_call` once a provider is
found: increment the provider's `request_count` and the call counter,
draw a fresh request id `"hub_" ++ counter`, and install the pending
entry.  Returns the new state, the provider and the request id; `none`
when no provider was found (the call then fails `noProvider` with the
state untouched). -/
def route_prepare (s : HubState) (tool_name : String)
    (source_session target_session : Option String) :
    Option (HubState × String × String) :=
  match routeProvider s tool_name target_session with
  | none => none
  | some provider =>
    let s1 := { s with
      nodes := updateA s.nodes provider
        (fun n => { n with request_count := n.request_count + 1 }),
      total_tool_calls := s.total_tool_calls + 1,
      request_counter := s.request_counter + 1 }
    let request_id := "hub_" ++ toString s1.request_counter
    let entry : PendingR :=
      { source_node := source_session.getD "hub", target_node := provider }
    let s2 := { s1 with
      pending_requests := setA s1.pending_requests request_id entry }
    some (s2, provider, request_id)

/-- `MeshHub.send_to_node`: fails when the target is absent or its
transport is closed; otherwise the environment decides (`sendOk` models
the `send_json` call not raising). -/
def send_to_node_ok (s : HubState) (sid : String) (sendOk : Bool) : Bool :=
  match nodeOf s sid with
  | none => false
  | some n => !n.wsClosed && sendOk

/-- The suffix of `route_tool_call` after the pending entry is installed:
send the request (on failure pop the entry and fail `sendFailed`); then
either the deadline elapses (pop the entry, fail `timeout`) or a matching
response arrives and `handle_response` resolves the entry. -/
def route_finish (s : HubState) (provider request_id : String)
    (sendOk : Bool) (env : CallEnv) : HubState × RouteResult :=
  if send_to_node_ok s provider sendOk then
    match env with
    | .timedOut =>
      ({ s with pending_requests := eraseA s.pending_requests request_id },
       .timeout)
    | .responded body =>
      let (s', _) := handle_response s request_id body
      match body with
      | .result v => (s', .ok v)
      | .error m => (s', .errorResult m)
  else
    ({ s with pending_requests := eraseA s.pending_requests request_id },
     .sendFailed provider)

/-- `MeshHub.route_tool_call`, with the send success and the awaited
outcome supplied by the environment. -/
def route_tool_call (s : HubState) (tool_name : String)
    (source_session target_session : Option String)
    (sendOk : Bool) (env : CallEnv) : HubState × RouteResult :=
  match route_prepare s tool_name source_session target_session with
  | none => (s, .noProvider tool_name)
  | some (s2, provider, request_id) =>
    route_finish s2 provider request_id sendOk env

/-! ## Ping and tools/list handlers (`MeshHub._handle_message`) -/

/-- The `ping` branch of `_handle_message`: update the sender's
`last_ping` to the current time (nothing else changes). -/
def handle_ping (s : HubState) (sid : String) (now : Nat) : HubState :=
  { s with nodes := updateA s.nodes sid (fun n => { n with last_ping := now }) }

/-- Append `sid` to the provider list of each tool in `tools` in which it
does not yet occur (`if node.session_id not in self.tool_providers[tool]`). -/
def addProviders (tp : List (String × List String)) (sid : String) :
    List String → List (String × List String)
  | [] => tp
  | t :: ts =>
    let cur := (lookupA tp t).getD []
    let tp' := if sid ∈ cur then tp else setA tp t (cur ++ [sid])
    addProviders tp' sid ts

/-- The `tools/list` branch of `_handle_message`: replace the node's
`tools` field with the advertised list and append the node to the
provider list of each advertised tool; provider entries for tools no
longer advertised are left in place. -/
def handle_tools_list (s : HubState) (sid : String) (tools : List String) :
    HubState :=
  match nodeOf s sid with
  | none => s
  | some _ =>
    { s with
      nodes := updateA s.nodes sid (fun n => { n with tools := tools }),
      tool_providers := addProviders s.tool_providers sid tools }

/-! ## Federation vault (`federation_vault.py`, `federation_tools.py`)

`hashlib.sha256(x).hexdigest()` is modelled as an explicit function
parameter `sha256`; `hmac.compare_digest(a, b)` as string equality (the
constant-time aspect is not observable in the embedding);
`secrets.token_urlsafe(32)` as an explicit `freshToken` argument drawn by
the environment. -/

/-- `FederationNode` from `federation_vault.py`. -/
structure FederationNode where
  node_id : String
  token_hash : String
  role : String
  allowed_ips : List String
  created_at : String
  last_seen : Option String
  active : Bool
deriving Repr, DecidableEq

/-- The vault's in-memory table `self.nodes : node_id → FederationNode`
(the `_save` persistence step writes exactly this table, so the same
assoc list models the persisted state). -/
abbrev VaultState : Type := List (String × FederationNode)

/-- Number of random bytes drawn by `secrets.token_urlsafe(32)` in
`register_node` / `rotate_token`. -/
def tokenUrlsafeBytes : Nat := 32

/-- `FederationVault.verify_token`: false when the node is unknown or
inactive; when `allowed_ips` is nonempty *and* `client_ip` is truthy
(present and not the empty string), false unless `client_ip` is listed;
false when `sha256(token)` differs from the stored digest; otherwise set
`last_seen` to the current time, persist, and return true. -/
def verify_token (sha256 : String → String) (now : String)
    (v : VaultState) (node_id token : String) (client_ip : Option String) :
    VaultState × Bool :=
  match lookupA v node_id with
  | none => (v, false)
  | some node =>
    if !node.active then (v, false)
    else if node.allowed_ips ≠ [] ∧ (client_ip.getD "") ≠ "" then
      if (client_ip.getD "") ∉ node.allowed_ips then (v, false)
      else if sha256 token ≠ node.token_hash then (v, false)
      else (updateA v node_id (fun n => { n with last_seen := some now }), true)
    else if sha256 token ≠ node.token_hash then (v, false)
    else (updateA v node_id (fun n => { n with last_seen := some now }), true)

/-- `FederationVault.register_node`: store a record holding only the
SHA-256 digest of the fresh token, and return the plaintext token. -/
def register_node (sha256 : String → String) (freshToken now : String)
    (v : VaultState) (node_id role : String) (allowed_ips : List String) :
    VaultState × String :=
  let node : FederationNode :=
    { node_id := node_id
      token_hash := sha256 freshToken
      role := role
      allowed_ips := allowed_ips
      created_at := now
      last_seen := none
      active := true }
  (setA v node_id node, freshToken)

/-- Result of the `federation_register` MCP tool. -/
inductive RegResult where
  | missingNodeId
  | conflict (node_id : String)
  | registered (token : String)
deriving Repr, DecidableEq

/-- The `federation_register` branch of `handle_federation_tool`:
reject a falsy `node_id`; fail with a conflict error when
`vault.get_node(node_id)` finds an existing record (active or not),
leaving the vault untouched; otherwise call `register_node` and return
the plaintext token. -/
def federation_register (sha256 : String → String) (freshToken now : String)
    (v : VaultState) (node_id : Option String) (role : String) :
    VaultState × RegResult :=
  let nid := node_id.getD ""
  if nid = "" then (v, .missingNodeId)
  else
    match lookupA v nid with
    | some _ => (v, .conflict nid)
    | none =>
      let (v', token) := register_node sha256 freshToken now v nid role []
      (v', .registered token)

/-! ## Signed envelopes (`server_federation.py`)

`verify_signed_request` parameterized by the HMAC-SHA256 hexdigest
function `hmacFn secret message`; `data` stands for
`json.dumps(data, sort_keys=True)`, its canonical JSON serialization. -/

/-- The `{data, timestamp, signature}` wrapper built by
`create_signed_request`. -/
structure SignedRequest where
  data : String
  timestamp : Int
  signature : String
deriving Repr, DecidableEq

/-- `create_signed_request`: sign `"{timestamp}:{canonical_json(data)}"`. -/
def create_signed_request (hmacFn : String → String → String)
    (secret : String) (now : Int) (data : String) : SignedRequest :=
  { data := data
    timestamp := now
    signature := hmacFn secret (toString now ++ ":" ++ data) }

/-- `verify_signed_request`: reject when `abs(now − timestamp) > max_age`
(300 s by default), then recompute the HMAC over
`"{timestamp}:{data}"` and return the `data` iff it matches. -/
def verify_signed_request (hmacFn : String → String → String)
    (secret : String) (now : Int) (req : SignedRequest)
    (max_age : Int := 300) : Option String :=
  if (now - req.timestamp).natAbs > max_age.toNat then none
  else
    let expected := hmacFn secret (toString req.timestamp ++ ":" ++ req.data)
    if req.signature = expected then some req.data else none

/-! ## Mesh-node gossip (`mesh_node.py`) -/

/-- `PeerInfo` from `mesh_node.py`: the lightweight known-peer record. -/
structure PeerInfo where
  peer_id : String
  address : String
  tools : List String
  last_seen : String
deriving Repr, DecidableEq

/-- One record of a `peer/gossip` payload (`p.get(...)` fields; a missing
`last_seen` defaults to the receiver's current time). -/
structure GossipRec where
  peer_id : String
  address : String
  tools : List String
  last_seen : Option String
deriving Repr, DecidableEq

/-- The gossip-relevant state of `MeshNode`: its own id, the ids of the
peers in `self.peers`, and the `_known_peers` table. -/
structure NodeState where
  node_id : String
  peer_ids : List String
  known_peers : List (String × PeerInfo)
deriving Repr, DecidableEq

/-- The guard of `_handle_gossip`'s loop body: the record's `peer_id` is
truthy, is not the receiving node itself, and is not in `self.peers`. -/
def gossipEligible (nid : String) (peers : List String) (p : GossipRec) :
    Prop :=
  p.peer_id ≠ "" ∧ p.peer_id ≠ nid ∧ p.peer_id ∉ peers

instance (nid : String) (peers : List String) (p : GossipRec) :
    Decidable (gossipEligible nid peers p) := by
  unfold gossipEligible; infer_instance

/-- The `PeerInfo` constructed from an incoming gossip record (a missing
`last_seen` defaults to the receiver's current time). -/
def gossipInfo (now : String) (p : GossipRec) : PeerInfo :=
  { peer_id := p.peer_id
    address := p.address
    tools := p.tools
    last_seen := p.last_seen.getD now }

/-- Process one gossip record: skipped when the guard fails; otherwise
the `_known_peers` entry is set to the incoming record (replacing any
previous entry for the same id). -/
def gossipStep (s : NodeState) (now : String) (p : GossipRec) : NodeState :=
  if gossipEligible s.node_id s.peer_ids p then
    { s with known_peers := setA s.known_peers p.peer_id (gossipInfo now p) }
  else s

/-- `MeshNode._handle_gossip`: fold `gossipStep` over the advertised
records. -/
def handle_gossip (s : NodeState) (now : String) (records : List GossipRec) :
    NodeState :=
  records.foldl (fun acc p => gossipStep acc now p) s

/-! ## Concrete states used by the witnesses and counterexamples -/

/-- A node with an open transport advertising `echo`. -/
def c1node (cnt : Nat) : MeshNodeR :=
  { wsClosed := false, tools := ["echo"], request_count := cnt,
    last_ping := 0 }

/-- The routing scenario of the spec: three open providers of `echo`
with request counts 2, 2 and 5, registered in that order. -/
def c1state : HubState :=
  { nodes := [("n1", c1node 2), ("n2", c1node 2), ("n3", c1node 5)]
    tool_providers := [("echo", ["n1", "n2", "n3"])]
    pending_requests := []
    request_counter := 0
    total_tool_calls := 0 }

/-- The hub state after `route_prepare` on `c1state` routes `echo`. -/
def c2state : HubState :=
  { nodes := [("n1", c1node 3), ("n2", c1node 2), ("n3", c1node 5)]
    tool_providers := [("echo", ["n1", "n2", "n3"])]
    pending_requests :=
      [("hub_1", { source_node := "hub", target_node := "n1" })]
    request_counter := 1
    total_tool_calls := 1 }

/-- A vault record whose `allowed_ips` is nonempty, used to exhibit the
behaviour of `verify_token` when no client IP is supplied. -/
def c3node : FederationNode :=
  { node_id := "n", token_hash := "tok", role := "node",
    allowed_ips := ["1.2.3.4"], created_at := "t0", last_seen := none,
    active := true }

/-- A concrete stand-in for the HMAC-SHA256 hexdigest used to exercise
`verify_signed_request` on explicit inputs. -/
def hmacC : String → String → String := fun secret msg => secret ++ "|" ++ msg

/-- A hub with one node advertising tool `a`, providing it in the
index. -/
def c6state : HubState :=
  { nodes := [("n1",
      { wsClosed := false, tools := ["a"], request_count := 0,
        last_ping := 0 })]
    tool_providers := [("a", ["n1"])]
    pending_requests := []
    request_counter := 0
    total_tool_calls := 0 }

/-- A hub with one open-transport node `n4` providing tool `t`, whose
last ping was received at time 0. -/
def c7state : HubState :=
  { nodes := [("n4",
      { wsClosed := false, tools := ["t"], request_count := 0,
        last_ping := 0 })]
    tool_providers := [("t", ["n4"])]
    pending_requests := []
    request_counter := 0
    total_tool_calls := 0 }

/-- An empty hub: no nodes, no providers. -/
def c8state : HubState :=
  { nodes := [], tool_providers := [], pending_requests := []
    request_counter := 0, total_tool_calls := 0 }

/-- A hub holding one node `nc` whose transport is closed. -/
def c8closed : HubState :=
  { nodes := [("nc",
      { wsClosed := true, tools := ["t"], request_count := 0,
        last_ping := 0 })]
    tool_providers := [("t", ["nc"])]
    pending_requests := []
    request_counter := 0
    total_tool_calls := 0 }

/-- The stored record for `p`, its `last_seen`, before the gossip. -/
def c9info : PeerInfo :=
  { peer_id := "p", address := "x", tools := [], last_seen := "2026-01-02" }

def c9state : NodeState :=
  { node_id := "me", peer_ids := [], known_peers := [("p", c9info)] }

def c9rec : GossipRec :=
  { peer_id := "p", address := "y", tools := [],
    last_seen := some "2026-01-01" }

/-- The last record in a gossip payload that concerns key `k` and passes
the guard — the record whose write survives the fold. -/
def lastMatch (nid : String) (peers : List String) (k : String) :
    List GossipRec → Option GossipRec
  | [] => none
  | p :: ps =>
    match lastMatch nid peers k ps with
    | some q => some q
    | none =>
      if p.peer_id = k ∧ gossipEligible nid peers p then some p else none

/-! ## Association-list lemmas -/

theorem lookupA_setA_self {V : Type} (l : List (String × V)) (k : String)
    (v : V) : lookupA (setA l k v) k = some v := by
  induction l with
  | nil => simp [setA, lookupA]
  | cons e es ih =>
    by_cases h : e.1 == k
    · simp [setA, h, lookupA]
    · simp [setA, h, lookupA, ih]

theorem lookupA_setA_ne {V : Type} (l : List (String × V)) (k k' : String)
    (v : V) (h : k' ≠ k) : lookupA (setA l k v) k' = lookupA l k' := by
  induction l with
  | nil =>
    simp only [setA, lookupA]
    have : (k == k') = false := by
      simp only [beq_eq_false_iff_ne]; exact fun hk => h hk.symm
    simp [this]
  | cons e es ih =>
    by_cases he : e.1 == k
    · have hk : (k == k') = false := by
        simp only [beq_eq_false_iff_ne]; exact fun hk => h hk.symm
      have he' : (e.1 == k') = false := by
        simp only [beq_eq_false_iff_ne]
        intro hk'
        exact h (hk'.symm.trans (eq_of_beq he))
      simp [setA, he, lookupA, hk, he']
    · by_cases he' : e.1 == k'
      · simp [setA, he, lookupA, he']
      · simp [setA, he, lookupA, he', ih]

theorem lookupA_eraseA_self {V : Type} (l : List (String × V)) (k : String) :
    lookupA (eraseA l k) k = none := by
  induction l with
  | nil => simp [eraseA, lookupA]
  | cons e es ih =>
    by_cases h : e.1 == k
    · simpa [eraseA, List.filter, h] using ih
    · simpa [eraseA, List.filter, h, lookupA] using ih

theorem lookupA_updateA_self {V : Type} (l : List (String × V)) (k : String)
    (f : V → V) : lookupA (updateA l k f) k = (lookupA l k).map f := by
  induction l with
  | nil => simp [updateA, lookupA]
  | cons e es ih =>
    by_cases h : e.1 == k
    · simp [updateA, h, lookupA]
    · simp [updateA, h, lookupA, ih]

theorem lookupA_updateA_ne {V : Type} (l : List (String × V)) (k k' : String)
    (f : V → V) (h : k' ≠ k) : lookupA (updateA l k f) k' = lookupA l k' := by
  induction l with
  | nil => simp [updateA, lookupA]
  | cons e es ih =>
    by_cases he : e.1 == k
    · have hk : (k == k') = false := by
        simp only [beq_eq_false_iff_ne]; exact fun hk => h hk.symm
      have he' : (e.1 == k') = false := by
        simp only [beq_eq_false_iff_ne]
        intro hk'
        exact h (hk'.symm.trans (eq_of_beq he))
      simp [updateA, he, lookupA, hk, he', ih]
    · simp [updateA, he, lookupA, ih]

/-! ## Minimum and decomposition lemmas for provider selection -/

theorem natMin?_eq_none {l : List Nat} (h : natMin? l = none) : l = [] := by
  cases l with
  | nil => rfl
  | cons x xs =>
    simp only [natMin?] at h
    cases hxs : natMin? xs <;> simp [hxs] at h

theorem natMin?_le {l : List Nat} {m : Nat} (h : natMin? l = some m) :
    ∀ x ∈ l, m ≤ x := by
  induction l generalizing m with
  | nil => simp [natMin?] at h
  | cons x xs ih =>
    intro y hy
    simp only [natMin?] at h
    cases hxs : natMin? xs with
    | none =>
      rw [hxs] at h
      simp only [Option.some.injEq] at h
      have hnil := natMin?_eq_none hxs
      subst hnil
      simp only [List.mem_singleton] at hy
      omega
    | some m' =>
      rw [hxs] at h
      simp only [Option.some.injEq] at h
      rcases List.mem_cons.mp hy with hx | hy'
      · subst hx
        rw [← h]
        exact Nat.min_le_left _ _
      · rw [← h]
        exact le_trans (Nat.min_le_right x m') (ih hxs y hy')

theorem natMin?_mem {l : List Nat} {m : Nat} (h : natMin? l = some m) :
    m ∈ l := by
  induction l generalizing m with
  | nil => simp [natMin?] at h
  | cons x xs ih =>
    simp only [natMin?] at h
    cases hxs : natMin? xs with
    | none =>
      rw [hxs] at h
      simp only [Option.some.injEq] at h
      subst h
      exact List.mem_cons_self _ _
    | some m' =>
      rw [hxs] at h
      simp only [Option.some.injEq] at h
      by_cases hle : x ≤ m'
      · have hx : m = x := by rw [← h]; exact Nat.min_eq_left hle
        subst hx
        exact List.mem_cons_self m xs
      · have hx : m = m' := by
          rw [← h]; exact Nat.min_eq_right (le_of_not_le hle)
        subst hx
        exact List.mem_cons_of_mem x (ih hxs)

/-- A decomposition of a filtered list lifts to a decomposition of the
original list. -/
theorem filter_decomp {α : Type} {p : α → Bool} :
    ∀ {l k1 k2 : List α} {a : α}, l.filter p = k1 ++ a :: k2 →
      ∃ m1 m2, l = m1 ++ a :: m2 ∧ m1.filter p = k1 ∧ m2.filter p = k2 := by
  intro l
  induction l with
  | nil => intro k1 k2 a h; rw [List.filter_nil] at h; cases k1 <;> simp at h
  | cons x xs ih =>
    intro k1 k2 a h
    by_cases hx : p x
    · rw [List.filter_cons_of_pos hx] at h
      cases k1 with
      | nil =>
        simp only [List.nil_append, List.cons.injEq] at h
        exact ⟨[], xs, by simp [h.1], rfl, h.2⟩
      | cons k k1' =>
        simp only [List.cons_append, List.cons.injEq] at h
        obtain ⟨m1, m2, hl, h1, h2⟩ := ih h.2
        exact ⟨x :: m1, m2, by simp [hl],
          by rw [List.filter_cons_of_pos hx, h1, h.1], h2⟩
    · rw [List.filter_cons_of_neg hx] at h
      obtain ⟨m1, m2, hl, h1, h2⟩ := ih h
      exact ⟨x :: m1, m2, by simp [hl],
        by rw [List.filter_cons_of_neg hx, h1], h2⟩

/-! ## Claim theorems -/

/-- C1: provider selection for a tool name only returns session ids that
are present in the node table with an open transport; the returned
provider's `request_count` is minimal among the connected providers of the
tool; among the connected providers attaining that minimum it is the one
occurring earliest in the registration-ordered provider list (no earlier
entry is a connected provider with the same count); and when no connected
provider exists the selection returns `none`. -/
theorem find_tool_provider_correct (s : HubState) (tool : String) :
    (find_tool_provider s tool = none →
      ∀ q ∈ providersOf s tool, isConnected s q = false) ∧
    (∀ sid, find_tool_provider s tool = some sid →
      isConnected s sid = true ∧
      (∀ q ∈ providersOf s tool, isConnected s q = true →
        requestCountOf s sid ≤ requestCountOf s q) ∧
      ∃ pre post, providersOf s tool = pre ++ sid :: post ∧ sid ∉ pre ∧
        ∀ q ∈ pre, ¬(isConnected s q = true ∧
          requestCountOf s q = requestCountOf s sid)) := by
  have hrw : find_tool_provider s tool =
      (match natMin? (((providersOf s tool).filter (isConnected s)).map
          (requestCountOf s)) with
       | none => none
       | some m => ((providersOf s tool).filter (isConnected s)).find?
           (fun p => requestCountOf s p == m)) := rfl
  constructor
  · intro hnone q hq
    rw [hrw] at hnone
    cases hm : natMin? (((providersOf s tool).filter (isConnected s)).map
        (requestCountOf s)) with
    | none =>
      have hmap := natMin?_eq_none hm
      have hfil : (providersOf s tool).filter (isConnected s) = [] :=
        List.map_eq_nil_iff.mp hmap
      have := List.filter_eq_nil_iff.mp hfil q hq
      exact Bool.not_eq_true _ ▸ (by simpa using this)
    | some m =>
      rw [hm] at hnone
      simp only [] at hnone
      have hall := List.find?_eq_none.mp hnone
      have hmem := natMin?_mem hm
      obtain ⟨x, hx, hcx⟩ := List.mem_map.mp hmem
      have := hall x hx
      simp [hcx] at this
  · intro sid hsid
    rw [hrw] at hsid
    cases hm : natMin? (((providersOf s tool).filter (isConnected s)).map
        (requestCountOf s)) with
    | none => rw [hm] at hsid; simp at hsid
    | some m =>
      rw [hm] at hsid
      simp only [] at hsid
      have hp := List.find?_some hsid
      have hcount : requestCountOf s sid = m := by simpa using hp
      have hmemc := List.mem_of_find?_eq_some hsid
      have hconn : isConnected s sid = true := (List.mem_filter.mp hmemc).2
      refine ⟨hconn, ?_, ?_⟩
      · intro q hq hqc
        have hqmem : q ∈ (providersOf s tool).filter (isConnected s) :=
          List.mem_filter.mpr ⟨hq, hqc⟩
        have := natMin?_le hm (requestCountOf s q)
          (List.mem_map_of_mem (requestCountOf s) hqmem)
        omega
      · obtain ⟨hpb, as, bs, hdec, has⟩ := List.find?_eq_some.mp hsid
        obtain ⟨m1, m2, hl, h1, h2⟩ := filter_decomp hdec
        refine ⟨m1, m2, hl, ?_, ?_⟩
        · intro hmem1
          have : sid ∈ m1.filter (isConnected s) :=
            List.mem_filter.mpr ⟨hmem1, hconn⟩
          rw [h1] at this
          have := has sid this
          simp [hcount] at this
        · intro q hq1 ⟨hqc, hqe⟩
          have : q ∈ m1.filter (isConnected s) :=
            List.mem_filter.mpr ⟨hq1, hqc⟩
          rw [h1] at this
          have := has q this
          rw [hqe, hcount] at this
          simp at this

/-- Witness for C1 at the spec's routing scenario: three open providers
of `echo` with request counts 2, 2, 5; selection returns the first
minimal provider `n1`, which is connected and of minimal count. -/
theorem find_tool_provider_correct_witness :
    find_tool_provider c1state "echo" = some "n1" ∧
    isConnected c1state "n1" = true ∧
    (∀ q ∈ providersOf c1state "echo", isConnected c1state q = true →
      requestCountOf c1state "n1" ≤ requestCountOf c1state q) := by
  refine ⟨by decide, ?_, ?_⟩
  · exact ((find_tool_provider_correct c1state "echo").2 "n1" (by decide)).1
  · exact ((find_tool_provider_correct c1state "echo").2 "n1" (by decide)).2.1

/-- C2: a response whose id is not in the pending table leaves the state
unchanged and is dropped with a logged warning (no exception path); and
every pending entry installed by routing a tool call is present
immediately after installation and is removed by each of the three
terminal resolutions (send failure, timeout, matching response), so no
entry outlives its resolution. -/
theorem pending_call_lifecycle :
    (∀ (s : HubState) (rid : String) (body : RespBody),
      lookupA s.pending_requests rid = none →
      handle_response s rid body = (s, .droppedLogged)) ∧
    (∀ (s : HubState) (tool : String) (src tgt : Option String)
       (s2 : HubState) (provider rid : String),
      route_prepare s tool src tgt = some (s2, provider, rid) →
      lookupA s2.pending_requests rid =
        some { source_node := src.getD "hub", target_node := provider } ∧
      ∀ (sendOk : Bool) (env : CallEnv),
        lookupA (route_finish s2 provider rid sendOk env).1.pending_requests
          rid = none) := by
  constructor
  · intro s rid body h
    simp [handle_response, h]
  · intro s tool src tgt s2 provider rid h
    simp only [route_prepare] at h
    cases hp : routeProvider s tool tgt with
    | none => rw [hp] at h; simp at h
    | some p =>
      rw [hp] at h
      simp only [Option.some.injEq, Prod.mk.injEq] at h
      obtain ⟨hs2, hprov, hrid⟩ := h
      subst hs2 hprov hrid
      constructor
      · exact lookupA_setA_self _ _ _
      · intro sendOk env
        by_cases hsend : send_to_node_ok
            ({ s with
               nodes := updateA s.nodes p
                 (fun n => { n with request_count := n.request_count + 1 }),
               total_tool_calls := s.total_tool_calls + 1,
               request_counter := s.request_counter + 1,
               pending_requests := setA s.pending_requests
                 ("hub_" ++ toString (s.request_counter + 1))
                 { source_node := src.getD "hub", target_node := p } })
            p sendOk
        · simp only [route_finish, hsend, if_true]
          cases env with
          | timedOut => exact lookupA_eraseA_self _ _
          | responded body =>
            simp only [handle_response, lookupA_setA_self]
            cases body with
            | result v => exact lookupA_eraseA_self _ _
            | error m => exact lookupA_eraseA_self _ _
        · simp only [route_finish, hsend, if_false]
          exact lookupA_eraseA_self _ _

/-- Witness for C2: a routed call in a concrete hub installs the pending
entry, the timeout path removes it, and a spurious response on a table
without that id is dropped with the state unchanged. -/
theorem pending_call_lifecycle_witness :
    handle_response c1state "hub_9" (.result "r") = (c1state, .droppedLogged)
    ∧ lookupA c2state.pending_requests "hub_1" =
        some { source_node := "hub", target_node := "n1" }
    ∧ lookupA (route_finish c2state "n1" "hub_1" true
        .timedOut).1.pending_requests "hub_1" = none := by
  have h2 := pending_call_lifecycle.2 c1state "echo" none none c2state
    "n1" "hub_1" (by decide)
  exact ⟨pending_call_lifecycle.1 c1state "hub_9" (.result "r") (by decide),
    h2.1, h2.2 true .timedOut⟩

/-- C3 counterexample: with the stored digest matching and a nonempty
`allowed_ips`, a call that supplies no client IP returns `true`, although
the claim's condition (`allowed_ips` empty, or the client IP a member of
`allowed_ips`) does not hold: the IP restriction is skipped entirely when
`client_ip` is falsy. -/
theorem verify_token_ip_counterexample :
    (verify_token (fun h => h) "t1" [("n", c3node)] "n" "tok" none).2 = true
    ∧ ¬(c3node.allowed_ips = [] ∨
        ∃ ip, (none : Option String) = some ip ∧ ip ∈ c3node.allowed_ips)
    := by
  constructor
  · decide
  · rintro (h | ⟨ip, hip, _⟩)
    · simp [c3node] at h
    · exact Option.noConfusion hip

/-- C3 amended: `verify_token` returns true only if the stored record
exists with `active = true`, its digest equals `sha256(token)`, and
either `allowed_ips` is empty, or the supplied client IP is falsy (absent
or empty — the code then skips the IP restriction), or the client IP is
a member of `allowed_ips`; on a true result `last_seen` is set to the
current time and the updated vault persisted, and on a false result the
vault is returned unchanged. -/
theorem verify_token_amended (sha256 : String → String) (now : String)
    (v : VaultState) (nid tok : String) (ip? : Option String) :
    ((verify_token sha256 now v nid tok ip?).2 = true →
      ∃ node, lookupA v nid = some node ∧ node.active = true ∧
        sha256 tok = node.token_hash ∧
        (node.allowed_ips = [] ∨ ip?.getD "" = "" ∨
          ip?.getD "" ∈ node.allowed_ips) ∧
        (verify_token sha256 now v nid tok ip?).1 =
          updateA v nid (fun n => { n with last_seen := some now })) ∧
    ((verify_token sha256 now v nid tok ip?).2 = false →
      (verify_token sha256 now v nid tok ip?).1 = v) := by
  cases hn : lookupA v nid with
  | none => simp [verify_token, hn]
  | some node =>
    simp only [verify_token, hn]
    by_cases hact : (!node.active) = true
    · rw [if_pos hact]
      exact ⟨fun h => by simp at h, fun _ => rfl⟩
    · rw [if_neg hact]
      have hact' : node.active = true := by simpa using hact
      by_cases hip : node.allowed_ips ≠ [] ∧ ip?.getD "" ≠ ""
      · rw [if_pos hip]
        by_cases hmem : ip?.getD "" ∉ node.allowed_ips
        · rw [if_pos hmem]
          exact ⟨fun h => by simp at h, fun _ => rfl⟩
        · rw [if_neg hmem]
          by_cases hsha : sha256 tok ≠ node.token_hash
          · rw [if_pos hsha]
            exact ⟨fun h => by simp at h, fun _ => rfl⟩
          · rw [if_neg hsha]
            refine ⟨fun _ => ⟨node, rfl, hact', not_not.mp hsha,
              Or.inr (Or.inr (not_not.mp hmem)), rfl⟩,
              fun h => by simp at h⟩
      · rw [if_neg hip]
        by_cases hsha : sha256 tok ≠ node.token_hash
        · rw [if_pos hsha]
          exact ⟨fun h => by simp at h, fun _ => rfl⟩
        · rw [if_neg hsha]
          refine ⟨fun _ => ⟨node, rfl, hact', not_not.mp hsha, ?_, rfl⟩,
            fun h => by simp at h⟩
          rcases not_and_or.mp hip with h | h
          · exact Or.inl (not_not.mp h)
          · exact Or.inr (Or.inl (not_not.mp h))

/-- Witness for C3 amended: a successful verification against a stored
record with empty `allowed_ips` yields the updated record. -/
theorem verify_token_amended_witness :
    (verify_token (fun h => h) "t1"
      [("m", { c3node with node_id := "m", allowed_ips := [] })]
      "m" "tok" (some "9.9.9.9")).2 = true ∧
    ∃ node, lookupA [("m", { c3node with node_id := "m", allowed_ips := [] })]
        "m" = some node ∧ node.active = true ∧
      (fun (h : String) => h) "tok" = node.token_hash := by
  refine ⟨by decide, ?_⟩
  obtain ⟨node, hn, hact, hsha, -, -⟩ :=
    (verify_token_amended (fun h => h) "t1"
      [("m", { c3node with node_id := "m", allowed_ips := [] })]
      "m" "tok" (some "9.9.9.9")).1 (by decide)
  exact ⟨node, hn, hact, hsha⟩

/-- C4: when `node_id` is already registered (whatever its `active`
flag), the `federation_register` tool fails with the conflict error and
returns the vault unchanged, so the existing record — its `token_hash`
and `active` flag included — is untouched; when `node_id` is free, the
new record stores only the SHA-256 digest of the freshly drawn token
(32 random bytes, i.e. 256 bits) and the plaintext token is returned
once. -/
theorem federation_register_spec (sha256 : String → String)
    (freshToken now : String) (v : VaultState) (nid role : String)
    (hnid : nid ≠ "") :
    (∀ existing, lookupA v nid = some existing →
      federation_register sha256 freshToken now v (some nid) role =
        (v, .conflict nid)) ∧
    (lookupA v nid = none →
      federation_register sha256 freshToken now v (some nid) role =
        (setA v nid
          { node_id := nid, token_hash := sha256 freshToken, role := role,
            allowed_ips := [], created_at := now, last_seen := none,
            active := true }, .registered freshToken)) ∧
    8 * tokenUrlsafeBytes ≥ 256 := by
  refine ⟨?_, ?_, by decide⟩
  · intro existing hex
    simp [federation_register, hnid, hex]
  · intro hnone
    simp [federation_register, hnid, hnone, register_node]

/-- Witness for C4: registering an existing id fails with `conflict` and
leaves the vault intact; registering a fresh id stores the digest and
returns the plaintext. -/
theorem federation_register_spec_witness :
    federation_register (fun h => h ++ "#") "T" "t0" [("n", c3node)]
      (some "n") "node" = ([("n", c3node)], .conflict "n") ∧
    federation_register (fun h => h ++ "#") "T" "t0" [] (some "m") "node" =
      (setA [] "m"
        { node_id := "m", token_hash := "T#", role := "node",
          allowed_ips := [], created_at := "t0", last_seen := none,
          active := true }, .registered "T") := by
  exact ⟨(federation_register_spec (fun h => h ++ "#") "T" "t0"
      [("n", c3node)] "n" "node" (by decide)).1 c3node (by decide),
    (federation_register_spec (fun h => h ++ "#") "T" "t0" [] "m" "node"
      (by decide)).2.1 (by decide)⟩

/-- C5 counterexample: an envelope whose timestamp differs from the
current time by exactly the replay window (300 s), with a valid HMAC, is
*accepted* (the code rejects only strictly beyond the window), while the
claim requires it to be rejected. -/
theorem replay_window_boundary_counterexample :
    verify_signed_request hmacC "sec" 300
      (create_signed_request hmacC "sec" 0 "d") 300 = some "d" ∧
    (300 : Int) - (create_signed_request hmacC "sec" 0 "d").timestamp =
      300 := by
  constructor <;> decide

/-- C5 amended: signed-envelope verification accepts exactly when
|now − timestamp| ≤ window *and* the recomputed HMAC matches; hence an
envelope at exactly ±window is accepted, at ±(window−1) accepted, and
only strictly beyond the window rejected. -/
theorem verify_signed_request_amended (hmacFn : String → String → String)
    (secret : String) (now : Int) (req : SignedRequest) (max_age : Int) :
    verify_signed_request hmacFn secret now req max_age =
      (if (now - req.timestamp).natAbs ≤ max_age.toNat ∧
          req.signature = hmacFn secret
            (toString req.timestamp ++ ":" ++ req.data)
       then some req.data else none) := by
  simp only [verify_signed_request]
  by_cases h : (now - req.timestamp).natAbs > max_age.toNat
  · rw [if_pos h, if_neg (fun hc => absurd hc.1 (by omega))]
  · rw [if_neg h]
    by_cases hs : req.signature = hmacFn secret
        (toString req.timestamp ++ ":" ++ req.data)
    · rw [if_pos hs, if_pos ⟨by omega, hs⟩]
    · rw [if_neg hs, if_neg (fun hc => hs hc.2)]

/-- Membership in the provider lists after `addProviders`: the update is
purely additive — `q` provides `t` afterwards iff it did before or `q` is
the advertising node and `t` one of the advertised tools. -/
theorem mem_addProviders (sid q : String) :
    ∀ (ts : List String) (tp : List (String × List String)) (t : String),
      q ∈ (lookupA (addProviders tp sid ts) t).getD [] ↔
      (q ∈ (lookupA tp t).getD [] ∨ (q = sid ∧ t ∈ ts)) := by
  intro ts
  induction ts with
  | nil => intro tp t; simp [addProviders]
  | cons t' ts ih =>
    intro tp t
    simp only [addProviders]
    by_cases hmem : sid ∈ (lookupA tp t').getD []
    · rw [if_pos hmem, ih tp t]
      constructor
      · rintro (h | ⟨rfl, h⟩)
        · exact Or.inl h
        · exact Or.inr ⟨rfl, List.mem_cons_of_mem _ h⟩
      · rintro (h | ⟨rfl, h⟩)
        · exact Or.inl h
        · rcases List.mem_cons.mp h with rfl | h'
          · exact Or.inl hmem
          · exact Or.inr ⟨rfl, h'⟩
    · rw [if_neg hmem,
        ih (setA tp t' ((lookupA tp t').getD [] ++ [sid])) t]
      by_cases ht : t = t'
      · subst ht
        rw [lookupA_setA_self]
        simp only [Option.getD_some, List.mem_append, List.mem_singleton,
          List.mem_cons, List.not_mem_nil, or_false, true_or]
        tauto
      · rw [lookupA_setA_ne _ _ _ _ ht]
        simp only [List.mem_cons]
        constructor
        · rintro (h | ⟨rfl, h⟩)
          · exact Or.inl h
          · exact Or.inr ⟨rfl, Or.inr h⟩
        · rintro (h | ⟨rfl, rfl | h⟩)
          · exact Or.inl h
          · exact absurd rfl ht
          · exact Or.inr ⟨rfl, h⟩

/-- C6 counterexample: after a `tools/list` that advertises only `b`,
the peer still appears among the providers of the dropped tool `a`
(`a` is not in the new list), so the peer's contribution to the Tool
Index is *not* replaced. -/
theorem tools_list_replacement_counterexample :
    "n1" ∈ providersOf (handle_tools_list c6state "n1" ["b"]) "a" ∧
    "a" ∉ (["b"] : List String) ∧
    (nodeOf (handle_tools_list c6state "n1" ["b"]) "n1").map
      MeshNodeR.tools = some ["b"] := by
  refine ⟨by decide, by decide, by decide⟩

/-- C6 amended: processing `tools/list` from a registered peer replaces
the peer's `tools` field, but updates the Tool Index only additively: the
peer appears among tool `t`'s providers afterwards iff it already did
before or `t` is in the newly advertised list — entries for tools dropped
from the list are left in place. -/
theorem handle_tools_list_additive (s : HubState) (sid : String)
    (tools : List String) (n : MeshNodeR) (hn : nodeOf s sid = some n) :
    nodeOf (handle_tools_list s sid tools) sid =
      some { n with tools := tools } ∧
    ∀ q t, q ∈ providersOf (handle_tools_list s sid tools) t ↔
      (q ∈ providersOf s t ∨ (q = sid ∧ t ∈ tools)) := by
  unfold handle_tools_list
  rw [hn]
  constructor
  · show lookupA (updateA s.nodes sid _) sid = _
    rw [lookupA_updateA_self]
    unfold nodeOf at hn
    rw [hn]
    rfl
  · intro q t
    exact mem_addProviders sid q tools s.tool_providers t

/-- Witness for C6 amended at the concrete one-node hub: the `tools`
field is replaced, and the stale provider entry for `a` survives via the
additive index characterization. -/
theorem handle_tools_list_additive_witness :
    nodeOf (handle_tools_list c6state "n1" ["b"]) "n1" =
      some { wsClosed := false, tools := ["b"], request_count := 0,
             last_ping := 0 } ∧
    ("n1" ∈ providersOf (handle_tools_list c6state "n1" ["b"]) "a" ↔
      ("n1" ∈ providersOf c6state "a" ∨
        ("n1" = "n1" ∧ "a" ∈ (["b"] : List String)))) := by
  have h := handle_tools_list_additive c6state "n1" ["b"]
    { wsClosed := false, tools := ["a"], request_count := 0, last_ping := 0 }
    (by decide)
  exact ⟨h.1, h.2 "n1" "a"⟩

/-- C7 counterexample: at current time 91 s the peer `n4` has received no
ping for 91 s (> 90 s), so the claim demands it be Offline and excluded
from provider selection; the hub keeps no per-peer status at all and
`find_tool_provider` (which does not even consult time or `last_ping`)
still returns it. -/
theorem heartbeat_exclusion_counterexample :
    find_tool_provider c7state "t" = some "n4" ∧
    (nodeOf c7state "n4").map MeshNodeR.last_ping = some 0 ∧
    91 - (0 : Nat) > 90 := by
  refine ⟨by decide, by decide, by decide⟩

/-- C7 amended: a `ping` message updates exactly the sender's
`last_ping` — the tool index, pending table and every other node are
untouched — and provider selection is completely independent of ping
recency: it returns the same provider before and after any ping at any
time, so peers are never demoted or excluded for ping staleness (only a
closed transport excludes them, per the selection theorem). -/
theorem heartbeat_amended (s : HubState) (sid : String) (now : Nat) :
    (handle_ping s sid now).tool_providers = s.tool_providers ∧
    (handle_ping s sid now).pending_requests = s.pending_requests ∧
    nodeOf (handle_ping s sid now) sid =
      (nodeOf s sid).map (fun n => { n with last_ping := now }) ∧
    (∀ q, q ≠ sid → nodeOf (handle_ping s sid now) q = nodeOf s q) ∧
    ∀ tool, find_tool_provider (handle_ping s sid now) tool =
      find_tool_provider s tool := by
  have hself : nodeOf (handle_ping s sid now) sid =
      (nodeOf s sid).map (fun n => { n with last_ping := now }) := by
    show lookupA (updateA s.nodes sid _) sid = _
    rw [lookupA_updateA_self]
    rfl
  have hother : ∀ q, q ≠ sid → nodeOf (handle_ping s sid now) q =
      nodeOf s q := by
    intro q hq
    show lookupA (updateA s.nodes sid _) q = _
    rw [lookupA_updateA_ne _ _ _ _ hq]
    rfl
  have hconn : isConnected (handle_ping s sid now) = isConnected s := by
    funext q
    unfold isConnected
    by_cases hq : q = sid
    · subst hq
      rw [hself]
      cases nodeOf s q <;> rfl
    · rw [hother q hq]
  have hcount : requestCountOf (handle_ping s sid now) = requestCountOf s
      := by
    funext q
    unfold requestCountOf
    by_cases hq : q = sid
    · subst hq
      rw [hself]
      cases nodeOf s q <;> rfl
    · rw [hother q hq]
  refine ⟨rfl, rfl, hself, hother, ?_⟩
  intro tool
  unfold find_tool_provider
  rw [hconn, hcount]
  rfl

/-- Witness for C7 amended at the concrete hub: a ping at time 91 leaves
selection unchanged and only moves `last_ping`. -/
theorem heartbeat_amended_witness :
    nodeOf (handle_ping c7state "n4" 91) "n4" =
      (nodeOf c7state "n4").map (fun n => { n with last_ping := 91 }) ∧
    find_tool_provider (handle_ping c7state "n4" 91) "t" =
      find_tool_provider c7state "t" := by
  have h := heartbeat_amended c7state "n4" 91
  exact ⟨h.2.2.1, h.2.2.2.2 "t"⟩

/-- C8 counterexample: a call with an explicit `target_node` that is not
a registered peer fails with exactly the same error value as a call with
no target and no provider — there is no distinct `NoSuchTarget` error. -/
theorem route_target_error_counterexample :
    route_tool_call c8state "echo" none (some "p9") true .timedOut =
      (c8state, .noProvider "echo") ∧
    route_tool_call c8state "echo" none none true .timedOut =
      (c8state, .noProvider "echo") := by
  exact ⟨by decide, by decide⟩

/-- C8 amended: naming a nonempty `target_node` absent from the node
table fails with the *same* no-provider error used when no peer
advertises the tool (state unchanged, no pending entry installed);
naming a present peer whose transport is closed still selects it — its
`request_count` is incremented and a pending entry installed — and then
fails with the send-failure error after removing that entry, so in
neither failure case does a pending entry survive; and an *empty*
`target_node` is falsy (`if target_session:`) and the call routes
exactly as if no target had been named. -/
theorem route_target_amended (s : HubState) (tool : String)
    (src : Option String) (tgt : String) (sendOk : Bool) (env : CallEnv) :
    (tgt ≠ "" → nodeOf s tgt = none →
      route_tool_call s tool src (some tgt) sendOk env =
        (s, .noProvider tool)) ∧
    (∀ n, tgt ≠ "" → nodeOf s tgt = some n → n.wsClosed = true →
      ∃ s', route_tool_call s tool src (some tgt) sendOk env =
          (s', .sendFailed tgt) ∧
        requestCountOf s' tgt = requestCountOf s tgt + 1 ∧
        lookupA s'.pending_requests
          ("hub_" ++ toString (s.request_counter + 1)) = none) ∧
    (route_tool_call s tool src (some "") sendOk env =
      route_tool_call s tool src none sendOk env) := by
  refine ⟨?_, ?_, ?_⟩
  · intro htgt h
    simp [route_tool_call, route_prepare, routeProvider, htgt, h]
  · intro n htgt hn hcl
    have hprep : route_prepare s tool src (some tgt) =
        some ({ s with
          nodes := updateA s.nodes tgt
            (fun m => { m with request_count := m.request_count + 1 }),
          total_tool_calls := s.total_tool_calls + 1,
          request_counter := s.request_counter + 1,
          pending_requests := setA s.pending_requests
            ("hub_" ++ toString (s.request_counter + 1))
            { source_node := src.getD "hub", target_node := tgt } },
          tgt, "hub_" ++ toString (s.request_counter + 1)) := by
      simp [route_prepare, routeProvider, htgt, hn]
    have hsend : ∀ pend, send_to_node_ok
        ({ s with
          nodes := updateA s.nodes tgt
            (fun m => { m with request_count := m.request_count + 1 }),
          total_tool_calls := s.total_tool_calls + 1,
          request_counter := s.request_counter + 1,
          pending_requests := pend }) tgt sendOk = false := by
      intro pend
      unfold send_to_node_ok nodeOf
      show (match lookupA (updateA s.nodes tgt _) tgt with
            | none => false
            | some m => !m.wsClosed && sendOk) = false
      rw [lookupA_updateA_self]
      unfold nodeOf at hn
      rw [hn]
      simp [hcl]
    refine ⟨{ s with
        nodes := updateA s.nodes tgt
          (fun m => { m with request_count := m.request_count + 1 }),
        total_tool_calls := s.total_tool_calls + 1,
        request_counter := s.request_counter + 1,
        pending_requests := eraseA (setA s.pending_requests
          ("hub_" ++ toString (s.request_counter + 1))
          { source_node := src.getD "hub", target_node := tgt })
          ("hub_" ++ toString (s.request_counter + 1)) }, ?_, ?_, ?_⟩
    · simp only [route_tool_call]
      rw [hprep]
      simp only [route_finish, hsend, Bool.false_eq_true, if_false]
    · show requestCountOf _ tgt = _
      unfold requestCountOf nodeOf
      rw [lookupA_updateA_self]
      unfold nodeOf at hn
      rw [hn]
      rfl
    · exact lookupA_eraseA_self _ _
  · have hrp : routeProvider s tool (some "") = routeProvider s tool none
        := by simp [routeProvider]
    have hprep : route_prepare s tool src (some "") =
        route_prepare s tool src none := by
      unfold route_prepare
      rw [hrp]
    unfold route_tool_call
    rw [hprep]

/-- Witness for C8 amended: targeting the closed-transport node `nc`
increments its count, fails the send, and leaves no pending entry;
targeting an unknown (nonempty) id gives the no-provider error; an
empty target routes as if none were given. -/
theorem route_target_amended_witness :
    route_tool_call c8closed "t" none (some "zz") true .timedOut =
      (c8closed, .noProvider "t") ∧
    (∃ s', route_tool_call c8closed "t" none (some "nc") true .timedOut =
        (s', .sendFailed "nc") ∧
      requestCountOf s' "nc" = requestCountOf c8closed "nc" + 1 ∧
      lookupA s'.pending_requests "hub_1" = none) ∧
    route_tool_call c8closed "t" none (some "") true .timedOut =
      route_tool_call c8closed "t" none none true .timedOut := by
  refine ⟨(route_target_amended c8closed "t" none "zz" true .timedOut).1
      (by decide) (by decide), ?_, ?_⟩
  · exact (route_target_amended c8closed "t" none "nc" true .timedOut).2.1
      { wsClosed := true, tools := ["t"], request_count := 0,
        last_ping := 0 }
      (by decide) (by decide) (by decide)
  · exact (route_target_amended c8closed "t" none "" true .timedOut).2.2

theorem gossipStep_preserve (s : NodeState) (now : String) (p : GossipRec) :
    (gossipStep s now p).node_id = s.node_id ∧
    (gossipStep s now p).peer_ids = s.peer_ids := by
  unfold gossipStep
  split <;> exact ⟨rfl, rfl⟩

theorem handle_gossip_preserve (now : String) :
    ∀ (recs : List GossipRec) (s : NodeState),
      (handle_gossip s now recs).node_id = s.node_id ∧
      (handle_gossip s now recs).peer_ids = s.peer_ids := by
  intro recs
  induction recs with
  | nil => intro s; exact ⟨rfl, rfl⟩
  | cons p ps ih =>
    intro s
    have hs := gossipStep_preserve s now p
    have hh := ih (gossipStep s now p)
    exact ⟨hh.1.trans hs.1, hh.2.trans hs.2⟩

/-- What `_handle_gossip` stores under key `k`: the `PeerInfo` of the
last eligible record for `k` in the payload, or the previous entry when
no record concerns `k`. -/
theorem handle_gossip_lookup (now k : String) :
    ∀ (recs : List GossipRec) (s : NodeState),
      lookupA (handle_gossip s now recs).known_peers k =
        (match lastMatch s.node_id s.peer_ids k recs with
         | some p => some (gossipInfo now p)
         | none => lookupA s.known_peers k) := by
  intro recs
  induction recs with
  | nil => intro s; rfl
  | cons p ps ih =>
    intro s
    have hstep := gossipStep_preserve s now p
    have hlhs : lookupA (handle_gossip s now (p :: ps)).known_peers k =
        (match lastMatch s.node_id s.peer_ids k ps with
         | some q => some (gossipInfo now q)
         | none => lookupA (gossipStep s now p).known_peers k) := by
      show lookupA (handle_gossip (gossipStep s now p) now ps).known_peers k
        = _
      rw [ih (gossipStep s now p), hstep.1, hstep.2]
    rw [hlhs]
    show _ = (match (match lastMatch s.node_id s.peer_ids k ps with
         | some q => some q
         | none => if p.peer_id = k ∧ gossipEligible s.node_id s.peer_ids p
             then some p else none) with
       | some q => some (gossipInfo now q)
       | none => lookupA s.known_peers k)
    cases hlm : lastMatch s.node_id s.peer_ids k ps with
    | some q => rfl
    | none =>
      by_cases hpe : p.peer_id = k ∧ gossipEligible s.node_id s.peer_ids p
      · rw [if_pos hpe]
        unfold gossipStep
        rw [if_pos hpe.2, ← hpe.1]
        exact lookupA_setA_self _ _ _
      · rw [if_neg hpe]
        unfold gossipStep
        by_cases hel : gossipEligible s.node_id s.peer_ids p
        · rw [if_pos hel]
          have hpk : p.peer_id ≠ k := fun hk => hpe ⟨hk, hel⟩
          exact lookupA_setA_ne _ _ _ _ (fun hk => hpk hk.symm)
        · rw [if_neg hel]

/-- C9 counterexample: a gossip record for the already-known peer `p`
carrying the *older* timestamp `2026-01-01` overwrites the stored
`2026-01-02`: the result is the received value, not the maximum of the
stored and received values. -/
theorem gossip_max_counterexample :
    (lookupA c9state.known_peers "p").map PeerInfo.last_seen =
      some "2026-01-02" ∧
    (lookupA (handle_gossip c9state "t9" [c9rec]).known_peers "p").map
      PeerInfo.last_seen = some "2026-01-01" ∧
    max ("2026-01-02" : String) "2026-01-01" = "2026-01-02" := by
  refine ⟨by decide, by decide, ?_⟩
  rw [max_eq_left_iff, String.le_iff_toList_le]
  decide

/-- C9 amended: processing gossip never changes the node's identity or
its connected-peer list; applying the same payload twice yields a
known-peers table with identical bindings (idempotence, set semantics on
`peer_id`); and an eligible record *replaces* the stored entry for its
peer id with the received record — `last_seen` is taken from the
incoming record (defaulting to the receipt time), not the maximum of
stored and received. -/
theorem gossip_amended (s : NodeState) (now : String)
    (recs : List GossipRec) :
    (handle_gossip s now recs).node_id = s.node_id ∧
    (handle_gossip s now recs).peer_ids = s.peer_ids ∧
    (∀ k, lookupA (handle_gossip (handle_gossip s now recs) now
        recs).known_peers k =
      lookupA (handle_gossip s now recs).known_peers k) ∧
    (∀ p, gossipEligible s.node_id s.peer_ids p →
      lookupA (gossipStep s now p).known_peers p.peer_id =
        some (gossipInfo now p)) := by
  have hpres := handle_gossip_preserve now recs s
  refine ⟨hpres.1, hpres.2, ?_, ?_⟩
  · intro k
    rw [handle_gossip_lookup now k recs (handle_gossip s now recs),
      hpres.1, hpres.2]
    cases hlm : lastMatch s.node_id s.peer_ids k recs with
    | some p =>
      rw [handle_gossip_lookup now k recs s, hlm]
    | none => rfl
  · intro p hel
    unfold gossipStep
    rw [if_pos hel]
    exact lookupA_setA_self _ _ _

/-- Witness for C9 amended: the concrete gossip overwrite, and
idempotence of the concrete payload. -/
theorem gossip_amended_witness :
    lookupA (gossipStep c9state "t9" c9rec).known_peers "p" =
      some (gossipInfo "t9" c9rec) ∧
    lookupA (handle_gossip (handle_gossip c9state "t9" [c9rec]) "t9"
        [c9rec]).known_peers "p" =
      lookupA (handle_gossip c9state "t9" [c9rec]).known_peers "p" := by
  have h := gossip_amended c9state "t9" [c9rec]
  exact ⟨h.2.2.2 c9rec (by decide), h.2.2.1 "p"⟩

/-- A provider returned by `find_tool_provider` is always a key of the
node table. -/
theorem find_tool_provider_isSome (s : HubState) (tool provider : String)
    (h : find_tool_provider s tool = some provider) :
    (nodeOf s provider).isSome := by
  have hrw : find_tool_provider s tool =
      (match natMin? (((providersOf s tool).filter (isConnected s)).map
          (requestCountOf s)) with
       | none => none
       | some m => ((providersOf s tool).filter (isConnected s)).find?
           (fun p => requestCountOf s p == m)) := rfl
  rw [hrw] at h
  cases hm : natMin? ((((providersOf s tool).filter (isConnected s))).map
      (requestCountOf s)) with
  | none => rw [hm] at h; cases h
  | some m =>
    rw [hm] at h
    simp only [] at h
    have hmem := List.mem_of_find?_eq_some h
    have hconn := (List.mem_filter.mp hmem).2
    unfold isConnected at hconn
    cases hn : nodeOf s provider with
    | none => rw [hn] at hconn; cases hconn
    | some n => simp [hn]

/-- A selected provider is always a key of the node table. -/
theorem routeProvider_isSome (s : HubState) (tool : String)
    (tgt : Option String) (provider : String)
    (h : routeProvider s tool tgt = some provider) :
    (nodeOf s provider).isSome := by
  cases tgt with
  | some t =>
    have hrw : routeProvider s tool (some t) =
        (if t ≠ "" then (if (nodeOf s t).isSome then some t else none)
         else find_tool_provider s tool) := rfl
    rw [hrw] at h
    by_cases ht0 : t ≠ ""
    · rw [if_pos ht0] at h
      by_cases ht : (nodeOf s t).isSome
      · rw [if_pos ht] at h
        cases h
        exact ht
      · rw [if_neg ht] at h
        cases h
    · rw [if_neg ht0] at h
      exact find_tool_provider_isSome s tool provider h
  | none =>
    have hrw : routeProvider s tool none = find_tool_provider s tool := rfl
    rw [hrw] at h
    exact find_tool_provider_isSome s tool provider h

/-- `route_finish` never touches the node table (it only resolves the
pending entry), so request counts are unchanged after the send. -/
theorem route_finish_nodes (s : HubState) (provider rid : String)
    (sendOk : Bool) (env : CallEnv) :
    (route_finish s provider rid sendOk env).1.nodes = s.nodes := by
  unfold route_finish
  by_cases h : send_to_node_ok s provider sendOk = true
  · rw [if_pos h]
    cases env with
    | timedOut => rfl
    | responded body =>
      unfold handle_response
      cases hl : lookupA s.pending_requests rid <;> cases body <;> rfl
  · rw [if_neg h]

/-- C10: routing a tool call increments the chosen provider's
`request_count` by exactly one in the selection stage — before the
request is even sent — leaves every other node's count unchanged, and no
completion path (send failure, timeout, success or error response)
modifies any count afterwards; consequently `request_count` is monotone
non-decreasing under routing and counts routed attempts, not completed
calls. -/
theorem request_count_monotone (s : HubState) (tool : String)
    (src tgt : Option String) :
    (∀ s2 provider rid,
      route_prepare s tool src tgt = some (s2, provider, rid) →
      requestCountOf s2 provider = requestCountOf s provider + 1 ∧
      (∀ q, q ≠ provider → requestCountOf s2 q = requestCountOf s q) ∧
      (∀ sendOk env q,
        requestCountOf (route_finish s2 provider rid sendOk env).1 q =
          requestCountOf s2 q)) ∧
    (∀ sendOk env q,
      requestCountOf s q ≤
        requestCountOf (route_tool_call s tool src tgt sendOk env).1 q)
    := by
  have hmain : ∀ s2 provider rid,
      route_prepare s tool src tgt = some (s2, provider, rid) →
      requestCountOf s2 provider = requestCountOf s provider + 1 ∧
      (∀ q, q ≠ provider → requestCountOf s2 q = requestCountOf s q) ∧
      (∀ sendOk env q,
        requestCountOf (route_finish s2 provider rid sendOk env).1 q =
          requestCountOf s2 q) := by
    intro s2 provider rid h
    simp only [route_prepare] at h
    cases hp : routeProvider s tool tgt with
    | none => rw [hp] at h; simp at h
    | some p =>
      rw [hp] at h
      simp only [Option.some.injEq, Prod.mk.injEq] at h
      obtain ⟨hs2, hprov, hrid⟩ := h
      subst hprov
      have hsome := routeProvider_isSome s tool tgt p hp
      refine ⟨?_, ?_, ?_⟩
      · rw [← hs2]
        show requestCountOf { s with nodes := updateA s.nodes p _ } p = _
        unfold requestCountOf nodeOf
        rw [lookupA_updateA_self]
        cases hn : lookupA s.nodes p with
        | none => unfold nodeOf at hsome; rw [hn] at hsome; cases hsome
        | some n => rfl
      · intro q hq
        rw [← hs2]
        show requestCountOf { s with nodes := updateA s.nodes p _ } q = _
        unfold requestCountOf nodeOf
        rw [lookupA_updateA_ne _ _ _ _ hq]
      · intro sendOk env q
        unfold requestCountOf nodeOf
        rw [route_finish_nodes]
  refine ⟨hmain, ?_⟩
  intro sendOk env q
  cases hprep : route_prepare s tool src tgt with
  | none =>
    simp only [route_tool_call, hprep]
    exact le_refl _
  | some v =>
    obtain ⟨s2, provider, rid⟩ := v
    obtain ⟨h1, h2, h3⟩ := hmain s2 provider rid hprep
    simp only [route_tool_call, hprep]
    rw [h3 sendOk env q]
    by_cases hq : q = provider
    · subst hq
      omega
    · rw [h2 q hq]

/-- Witness for C10 at the concrete hub `c1state`: routing `echo` bumps
`n1` from 2 to 3 and leaves `n2`, and the timeout path changes no
count. -/
theorem request_count_monotone_witness :
    requestCountOf c2state "n1" = requestCountOf c1state "n1" + 1 ∧
    requestCountOf c2state "n2" = requestCountOf c1state "n2" ∧
    requestCountOf (route_finish c2state "n1" "hub_1" true .timedOut).1
      "n1" = requestCountOf c2state "n1" ∧
    requestCountOf c1state "n2" ≤
      requestCountOf (route_tool_call c1state "echo" none none true
        .timedOut).1 "n2" := by
  have h := (request_count_monotone c1state "echo" none none).1 c2state
    "n1" "hub_1" (by decide)
  exact ⟨h.1, h.2.1 "n2" (by decide), h.2.2 true .timedOut "n1",
    (request_count_monotone c1state "echo" none none).2 true .timedOut "n2"⟩

end Mesh
